import Mathlib

/-!
# The filesystem store backend of the image package (`image/fs.go`)

A shallow embedding of the content-addressable store `fs` and of the part of
the operating system it talks to.

* Path strings are Go strings.  `filepath.Join` splits its elements at the
  separator and cleans the result (empty and `.` elements are dropped, `..`
  removes the element before it), so a root, a digest payload or a metadata
  key with separators or dot names lands where it lands in the code.  A
  relative path is read from the working directory of the process, a relative
  link target from the directory of the link.
* The filesystem is a finite map from locations (the names from the root
  directory down) to nodes: regular files, directories and symbolic links.
  Every directory above a location must exist and be a directory (`ENOENT`,
  `ENOTDIR` otherwise).  Symbolic links are followed in the last component of
  a path only (these are the promotion links the store creates itself); a
  link in the place of a directory counts as a non-directory.  A chain of
  links is followed to its end and a cyclic chain is reported as `ELOOP`.
* Permissions, disk faults and concurrency are outside the model: every
  operation is one atomic state transition, as it is under the store lock.
* The digest library is external to the repository.  A digest is the pair
  (algorithm, payload); hashing and validation are parameters (`DigestLib`).
-/

namespace image

/-! ## Paths -/

abbrev Bytes := List UInt8

/-- A location in the filesystem: the names from the root directory down. -/
abbrev Loc := List String

/-- A cleaned path string: rooted or relative, and its components.  A relative
path may start with `..` components; the relative path without components is
the string `.`, the rooted one is `/`. -/
structure Path where
  abs : Bool
  comps : List String
  deriving DecidableEq, Repr

/-- The path string starts with the separator. -/
def isAbs (s : String) : Bool :=
  match s.data with
  | c :: _ => decide (c = '/')
  | [] => false

/-- Split at the separator; `acc` holds the current component, reversed. -/
def splitAux : List Char → List Char → List String
  | [], acc => [String.mk acc.reverse]
  | c :: cs, acc =>
    if c = '/' then String.mk acc.reverse :: splitAux cs [] else splitAux cs (c :: acc)

def splitComps (s : String) : List String := splitAux s.data []

/-- One step of `filepath.Clean` on a stack of components (last one first). -/
def cleanStep (rooted : Bool) (stack : List String) (c : String) : List String :=
  if c = "" ∨ c = "." then stack
  else if c = ".." then
    match stack with
    | [] => if rooted then [] else [".."]
    | l :: rest => if l = ".." then ".." :: l :: rest else rest
  else c :: stack

/-- The function `filepath.Join`: the elements are joined with the separator
and the result is cleaned; it is rooted when the first non-empty element
starts with the separator.  (Every call in the store passes a non-empty
directory name, so the empty result of an all-empty join does not arise.) -/
def Join (elem : List String) : Path :=
  let rooted :=
    match elem.dropWhile (fun e => decide (e = "")) with
    | e :: _ => isAbs e
    | [] => false
  { abs := rooted
    comps := ((elem.flatMap splitComps).foldl (cleanStep rooted) []).reverse }

/-- The function `filepath.Join` applied to the string of a cleaned path and
further elements. -/
def joinPath (p : Path) (elem : List String) : Path :=
  { abs := p.abs
    comps := ((elem.flatMap splitComps).foldl (cleanStep p.abs) p.comps.reverse).reverse }

/-- The path printed with the `%s` verb. -/
def pathText (p : Path) : String :=
  if p.abs then "/" ++ String.intercalate "/" p.comps
  else if p.comps = [] then "."
  else String.intercalate "/" p.comps

inductive Node where
  | file (data : Bytes)
  | dir
  | symlink (target : Path)
  deriving DecidableEq, Repr

inductive Errno where
  | ENOENT
  | EEXIST
  | ENOTDIR
  | EISDIR
  | ENOTEMPTY
  | ELOOP
  | EBUSY
  | EINVAL
  deriving DecidableEq, Repr

/-- Go error values: an operating-system error carrying the failed operation
and path, a plain message (`fmt.Errorf`), or a cause wrapped with a message
(`errors.Wrap`, `errors.Wrapf`). -/
inductive Err where
  | os (op : String) (path : Path) (errno : Errno)
  | errorf (msg : String)
  | wrap (cause : Err) (msg : String)
  deriving DecidableEq, Repr

deriving instance DecidableEq for Except

/-- The entries of the filesystem: the first entry for a location is the node
there.  The root directory `[]` always exists and has no entry. -/
abbrev Disk := List (Loc × Node)

/-- The state of the operating system: the working directory of the process
and the entries of the filesystem. -/
structure FileSys where
  cwd : Loc
  nodes : Disk
  deriving DecidableEq, Repr

def lookup : Disk → Loc → Option Node
  | [], _ => none
  | (q, n) :: rest, p => if q = p then some n else lookup rest p

def erase (nodes : Disk) (p : Loc) : Disk :=
  nodes.filter (fun e => decide (e.1 ≠ p))

def put (nodes : Disk) (p : Loc) (n : Node) : Disk :=
  (p, n) :: erase nodes p

/-- The rest of `p` after the leading components `d`, when `p` starts with `d`. -/
def stripLead : Loc → Loc → Option Loc
  | [], p => some p
  | _ :: _, [] => none
  | a :: as, b :: bs => if a = b then stripLead as bs else none

/-- The location `p` is `d` itself or lies below `d`. -/
def under (d p : Loc) : Bool := (stripLead d p).isSome

def eraseTree (nodes : Disk) (d : Loc) : Disk :=
  nodes.filter (fun e => !under d e.1)

/-- The node at a location, the root directory included. -/
def nodeAt (nodes : Disk) (p : Loc) : Option Node :=
  match p with
  | [] => some .dir
  | _ :: _ => lookup nodes p

/-- One component of a path walked from location `d`. -/
def stepLoc (d : Loc) (c : String) : Loc :=
  if c = ".." then d.dropLast else d ++ [c]

/-- The location a path names when relative paths start at `base`. -/
def locateFrom (base : Loc) (p : Path) : Loc :=
  p.comps.foldl stepLoc (if p.abs then [] else base)

/-- The location a path names for the process. -/
def locate (st : FileSys) (p : Path) : Loc := locateFrom st.cwd p

/-- Every directory above `base/c₁/.../cₙ`, from `base/c₁` on, must be a
directory. -/
def checkDirs (nodes : Disk) (base : Loc) : List String → Except Errno Unit
  | [] => .ok ()
  | [_] => .ok ()
  | c :: c2 :: cs =>
    match lookup nodes (base ++ [c]) with
    | some .dir => checkDirs nodes (base ++ [c]) (c2 :: cs)
    | none => .error .ENOENT
    | some _ => .error .ENOTDIR

/-- The node at a location, links not followed (`lstat`). -/
def lstat (nodes : Disk) (p : Loc) : Except Errno Node :=
  match checkDirs nodes [] p with
  | .error e => .error e
  | .ok _ =>
    match nodeAt nodes p with
    | none => .error .ENOENT
    | some n => .ok n

/-- Follow symbolic links from `p` for at most `n` hops. -/
def resolve (nodes : Disk) : Nat → Loc → Except Errno (Loc × Node)
  | 0, _ => .error .ELOOP
  | n + 1, p =>
    match lstat nodes p with
    | .error e => .error e
    | .ok (.symlink t) => resolve nodes n (locateFrom p.dropLast t)
    | .ok (.file data) => .ok (p, .file data)
    | .ok .dir => .ok (p, .dir)

/-- Follow symbolic links to the end of the chain; an acyclic chain has at most
as many links as the state has entries. -/
def follow (st : FileSys) (p : Path) : Except Errno (Loc × Node) :=
  resolve st.nodes (st.nodes.length + 1) (locate st p)

/-- The function `ioutil.ReadFile`. -/
def ReadFile (st : FileSys) (filename : Path) : Except Err Bytes :=
  match follow st filename with
  | .ok (_, .file data) => .ok data
  | .ok (_, _) => .error (.os "read" filename .EISDIR)
  | .error e => .error (.os "open" filename e)

/-- The function `os.Stat`: it follows links, so a dangling link does not exist. -/
def Stat (st : FileSys) (name : Path) : Except Err Node :=
  match follow st name with
  | .ok (_, n) => .ok n
  | .error e => .error (.os "stat" name e)

/-- The function `os.IsNotExist`. -/
def IsNotExist : Err → Bool
  | .os _ _ .ENOENT => true
  | _ => false

/-- The function `os.Symlink`: `newname` becomes a link to `oldname`, which is
stored as given. -/
def Symlink (st : FileSys) (oldname newname : Path) : Except Err FileSys :=
  match checkDirs st.nodes [] (locate st newname) with
  | .error e => .error (.os "symlink" newname e)
  | .ok _ =>
    match nodeAt st.nodes (locate st newname) with
    | some _ => .error (.os "symlink" newname .EEXIST)
    | none => .ok { st with nodes := put st.nodes (locate st newname) (.symlink oldname) }

/-- The function `os.RemoveAll`: removes `path` and everything below it.  A
missing path is not an error, a non-directory above it is; the path `.` is
refused and the root directory itself cannot be removed. -/
def RemoveAll (st : FileSys) (path : Path) : FileSys × Option Err :=
  if path.abs = false ∧ path.comps = [] then (st, some (.os "RemoveAll" path .EINVAL))
  else
    match checkDirs st.nodes [] (locate st path) with
    | .error .ENOENT => (st, none)
    | .error e => (st, some (.os "unlinkat" path e))
    | .ok _ =>
      if locate st path = [] then
        ({ st with nodes := [] }, some (.os "unlinkat" path .EBUSY))
      else ({ st with nodes := eraseTree st.nodes (locate st path) }, none)

/-- The function `os.Remove`: removes a file, a link or an empty directory. -/
def Remove (st : FileSys) (name : Path) : FileSys × Option Err :=
  match lstat st.nodes (locate st name) with
  | .error e => (st, some (.os "remove" name e))
  | .ok .dir =>
    if locate st name = [] then (st, some (.os "remove" name .EBUSY))
    else if st.nodes.any (fun e => under (locate st name) e.1 && decide (e.1 ≠ locate st name)) then
      (st, some (.os "remove" name .ENOTEMPTY))
    else ({ st with nodes := erase st.nodes (locate st name) }, none)
  | .ok _ => ({ st with nodes := erase st.nodes (locate st name) }, none)

/-- Create the directories `base/c₁`, `base/c₁/c₂`, ... that are missing. -/
def mkdirFrom (nodes : Disk) (base : Loc) : List String → Disk × Option Err
  | [] => (nodes, none)
  | c :: cs =>
    match lookup nodes (base ++ [c]) with
    | none => mkdirFrom (put nodes (base ++ [c]) .dir) (base ++ [c]) cs
    | some .dir => mkdirFrom nodes (base ++ [c]) cs
    | some _ => (nodes, some (.os "mkdir" { abs := true, comps := base ++ [c] } .ENOTDIR))

/-- The function `os.MkdirAll`. -/
def MkdirAll (st : FileSys) (path : Path) : FileSys × Option Err :=
  ({ st with nodes := (mkdirFrom st.nodes [] (locate st path)).1 },
    (mkdirFrom st.nodes [] (locate st path)).2)

/-- The order of file names: by code point, which is the byte order of their
UTF-8 encoding. -/
def nameLt : List Char → List Char → Bool
  | [], [] => false
  | [], _ :: _ => true
  | _ :: _, [] => false
  | a :: as, b :: bs =>
    if a.toNat < b.toNat then true
    else if b.toNat < a.toNat then false
    else nameLt as bs

/-- Insert a name into a list sorted by byte order, keeping one copy. -/
def insertName (x : String) : List String → List String
  | [] => [x]
  | y :: ys =>
    if x = y then y :: ys
    else if nameLt x.data y.data then x :: y :: ys
    else y :: insertName x ys

/-- The names of the entries directly inside directory `d`, sorted. -/
def childNames (nodes : Disk) (d : Loc) : List String :=
  nodes.foldr (fun e acc =>
    match stripLead d e.1 with
    | some [name] => insertName name acc
    | _ => acc) []

/-- The function `ioutil.ReadDir`, reduced to the entry names (sorted by name). -/
def ReadDir (st : FileSys) (dirname : Path) : Except Err (List String) :=
  match follow st dirname with
  | .ok (q, .dir) => .ok (childNames st.nodes q)
  | .ok (_, _) => .error (.os "readdirent" dirname .ENOTDIR)
  | .error e => .error (.os "open" dirname e)

/-- Modelled from the spec: `ioutils.AtomicWriteFile` (package `pkg/ioutils`).
The data is written to a temporary file in the directory of `filename` and
renamed into place, so the write either happens wholly or not at all; the
rename replaces a file or link at `filename` and fails on a directory. -/
def AtomicWriteFile (st : FileSys) (filename : Path) (data : Bytes) : Except Err FileSys :=
  match checkDirs st.nodes [] (locate st filename) with
  | .error e => .error (.os "open" filename e)
  | .ok _ =>
    match nodeAt st.nodes (locate st filename) with
    | some .dir => .error (.os "rename" filename .EISDIR)
    | _ => .ok { st with nodes := put st.nodes (locate st filename) (.file data) }

/-! ## Digests (external library) -/

/-- Modelled from the spec: the digest identity of the external digest library,
a pair of algorithm name and hex payload; two digests are equal iff both fields
match.  The Go value is the string `algorithm:hex`; a string without the
separator, on which `Algorithm` and `Hex` panic, is no value of this type. -/
structure Digest where
  algorithm : String
  hex : String
  deriving DecidableEq, Repr

/-- The Go string of a digest, as printed by the `%s` and `%v` verbs. -/
def Digest.text (d : Digest) : String := d.algorithm ++ ":" ++ d.hex

/-- The constant `digest.Canonical`. -/
def Canonical : String := "sha256"

/-- The function `digest.NewDigestFromHex`. -/
def NewDigestFromHex (alg hex : String) : Digest := ⟨alg, hex⟩

/-- The two operations of the digest library whose results the store only
compares and tests: hashing (`digest.FromBytes`) and the syntactic check
(`Digest.Validate`, `none` when the digest is well formed). -/
structure DigestLib where
  FromBytes : Bytes → Digest
  Validate : Digest → Option Err

/-! ## The store (`image/fs.go`) -/

/-- The options of `Get`.  The Go methods take a pointer to them; a nil pointer,
on which `get` panics, is no value of this type. -/
structure StoreBackendOptions where
  UseExtraStorage : Bool
  deriving DecidableEq, Repr

/-- The receiver `fs`: the primary root and the extra-storage root, as the
strings given to `NewFSStoreBackend`. -/
structure fs where
  root : String
  extraStoragePath : String
  deriving DecidableEq, Repr

def contentDirName : String := "content"

def metadataDirName : String := "metadata"

def newFSStore (st : FileSys) (root extraStoragePath : String) : FileSys × Except Err fs :=
  let s : fs := { root := root, extraStoragePath := extraStoragePath }
  match MkdirAll st (Join [root, contentDirName, Canonical]) with
  | (st1, some err) => (st1, .error (.wrap err "failed to create storage backend"))
  | (st1, none) =>
    match MkdirAll st1 (Join [root, metadataDirName, Canonical]) with
    | (st2, some err) => (st2, .error (.wrap err "failed to create storage backend"))
    | (st2, none) => (st2, .ok s)

def contentFile (s : fs) (dgst : Digest) (useExtraStorageAsRoot : Bool) : Path :=
  let rootPath := if useExtraStorageAsRoot then s.extraStoragePath else s.root
  Join [rootPath, contentDirName, dgst.algorithm, dgst.hex]

def metadataDir (s : fs) (dgst : Digest) (useExtraStorageAsRoot : Bool) : Path :=
  let rootPath := if useExtraStorageAsRoot then s.extraStoragePath else s.root
  Join [rootPath, metadataDirName, dgst.algorithm, dgst.hex]

/-- The loop of `Walk` over the directory listing.  The callback `f` may have
effects of its own; they are threaded through as a state of type `σ`. -/
def walkEntries {σ : Type} (D : DigestLib) (f : σ → Digest → σ × Option Err) :
    σ → List String → σ × Option Err
  | c, [] => (c, none)
  | c, v :: rest =>
    let dgst := NewDigestFromHex Canonical v
    match D.Validate dgst with
    | some _ => walkEntries D f c rest
    | none =>
      match f c dgst with
      | (c1, some err) => (c1, some err)
      | (c1, none) => walkEntries D f c1 rest

def Walk {σ : Type} (D : DigestLib) (s : fs) (st : FileSys)
    (f : σ → Digest → σ × Option Err) (c : σ) : σ × Option Err :=
  match ReadDir st (Join [s.root, contentDirName, Canonical]) with
  | .error err => (c, some err)
  | .ok dir => walkEntries D f c dir

/-- The method `get`.  The first stage is the `if opt.UseExtraStorage` block: it
either returns early or leaves the state, `content` and `readOk`; the second
stage is the code from `err = nil` on.  A failed read leaves `content` nil. -/
def get (D : DigestLib) (s : fs) (st : FileSys) (dgst : Digest) (opt : StoreBackendOptions) :
    FileSys × Except Err Bytes :=
  let stage : Except Err (FileSys × Bytes × Bool) :=
    if opt.UseExtraStorage then
      match ReadFile st (contentFile s dgst true) with
      | .error _ => .ok (st, [], true)
      | .ok content =>
        let extraPath := contentFile s dgst true
        let symPath := contentFile s dgst false
        match Stat st symPath with
        | .ok _ => .ok (st, content, true)
        | .error err =>
          if IsNotExist err then
            match Symlink st extraPath symPath with
            | .error err1 =>
              .error (.wrap err1 ("cannot make symbol link for file " ++ pathText symPath))
            | .ok st1 => .ok (st1, content, true)
          else .error (.wrap err ("stat file failed " ++ pathText symPath))
    else .ok (st, [], false)
  match stage with
  | .error err => (st, .error err)
  | .ok (st1, content0, readOk) =>
    let read : Except Err Bytes :=
      if !readOk then ReadFile st1 (contentFile s dgst false) else .ok content0
    match read with
    | .error err => (st1, .error (.wrap err ("failed to get digest " ++ dgst.text)))
    | .ok content =>
      if D.FromBytes content ≠ dgst then
        (st1, .error (.errorf ("failed to verify: " ++ dgst.text)))
      else (st1, .ok content)

def Get (D : DigestLib) (s : fs) (st : FileSys) (dgst : Digest) (options : StoreBackendOptions) :
    FileSys × Except Err Bytes :=
  get D s st dgst options

/-- The method `Set`.  A failure carries no digest; in Go it comes with the empty
digest value. -/
def Set (D : DigestLib) (s : fs) (st : FileSys) (data : Bytes) : FileSys × Except Err Digest :=
  if data.length = 0 then (st, .error (.errorf "invalid empty data"))
  else
    let dgst := D.FromBytes data
    match AtomicWriteFile st (contentFile s dgst false) data with
    | .error err => (st, .error (.wrap err "failed to write digest data"))
    | .ok st1 => (st1, .ok dgst)

def Delete (s : fs) (st : FileSys) (dgst : Digest) : FileSys × Option Err :=
  match RemoveAll st (metadataDir s dgst false) with
  | (st1, some err) => (st1, some err)
  | (st1, none) => Remove st1 (contentFile s dgst false)

def SetMetadata (D : DigestLib) (s : fs) (st : FileSys) (dgst : Digest) (key : String)
    (data : Bytes) : FileSys × Option Err :=
  match get D s st dgst { UseExtraStorage := false } with
  | (st1, .error err) => (st1, some err)
  | (st1, .ok _) =>
    let baseDir := joinPath (metadataDir s dgst false) []
    match MkdirAll st1 baseDir with
    | (st2, some err) => (st2, some err)
    | (st2, none) =>
      match AtomicWriteFile st2 (joinPath (metadataDir s dgst false) [key]) data with
      | .error err => (st2, some err)
      | .ok st3 => (st3, none)

def GetMetadata (D : DigestLib) (s : fs) (st : FileSys) (dgst : Digest) (key : String) :
    FileSys × Except Err Bytes :=
  match get D s st dgst { UseExtraStorage := false } with
  | (st1, .error err) => (st1, .error err)
  | (st1, .ok _) =>
    match ReadFile st1 (joinPath (metadataDir s dgst false) [key]) with
    | .error err => (st1, .error (.wrap err "failed to read metadata"))
    | .ok bytes => (st1, .ok bytes)

def DeleteMetadata (s : fs) (st : FileSys) (dgst : Digest) (key : String) :
    FileSys × Option Err :=
  RemoveAll st (joinPath (metadataDir s dgst false) [key])

/-- The error is, or wraps, an operating-system "no such file" error. -/
def IsNotFound : Err → Bool
  | .os _ _ errno => decide (errno = .ENOENT)
  | .errorf _ => false
  | .wrap cause _ => IsNotFound cause

/-! ## A concrete digest library and store for the examples -/

def hexDigit (n : Nat) : Char :=
  if n < 10 then Char.ofNat (48 + n) else Char.ofNat (87 + n)

def hexOf (b : Bytes) : String :=
  String.mk (b.flatMap fun x => [hexDigit (x.toNat / 16), hexDigit (x.toNat % 16)])

def isHexChar (c : Char) : Bool :=
  (48 ≤ c.toNat && c.toNat ≤ 57) || (97 ≤ c.toNat && c.toNat ≤ 102)

/-- A stand-in digest library for the concrete examples: the payload of a
digest is the hex encoding of the content itself, and a digest is well formed
when it is canonical with a non-empty lower-case hex payload. -/
def hexLib : DigestLib where
  FromBytes b := ⟨Canonical, hexOf b⟩
  Validate d :=
    if d.algorithm = Canonical ∧ d.hex ≠ "" ∧ d.hex.data.all isHexChar = true then none
    else some (.errorf "invalid checksum digest format")

/-- An example store with primary root `/var` and extra root `/mnt`. -/
def store0 : fs := { root := "/var", extraStoragePath := "/mnt" }

/-- The filesystem right after `newFSStore` created the example store; the
process runs in `/srv`. -/
def disk0 : FileSys :=
  (newFSStore { cwd := ["srv"], nodes := [(["srv"], .dir), (["var"], .dir)] } "/var" "/mnt").1

/-- The example store without an extra root: the extra-root string is empty. -/
def storeNoExtra : fs := { root := "/var", extraStoragePath := "" }

/-- The digest of the example content `[1, 2]`. -/
def digest12 : Digest := ⟨Canonical, "0102"⟩

/-- The example filesystem after `Set [1, 2]`. -/
def disk1 : FileSys := (Set hexLib store0 disk0 [1, 2]).1

/-- The example filesystem after `SetMetadata` stored `[7]` under key `parent`. -/
def disk2 : FileSys := (SetMetadata hexLib store0 disk1 digest12 "parent" [7]).1

/-- The example filesystem after the blob and its metadata were deleted. -/
def disk3 : FileSys := (Delete store0 disk2 digest12).1

/-- Add an entry to a filesystem state. -/
def withEntry (st : FileSys) (p : Loc) (n : Node) : FileSys :=
  { st with nodes := put st.nodes p n }

/-- The digests `Walk` has to report for a listing: those built from the entry
names that pass validation, in listing order. -/
def validDigests (D : DigestLib) (dir : List String) : List Digest :=
  (dir.map (NewDigestFromHex Canonical)).filter (fun d => (D.Validate d).isNone)

/-- The enumeration in the words of the callback contract: visit the digests in
order, stop at the first error and hand that error back. -/
def visitInOrder {σ : Type} (f : σ → Digest → σ × Option Err) : σ → List Digest → σ × Option Err
  | c, [] => (c, none)
  | c, d :: ds =>
    match f c d with
    | (c1, some err) => (c1, some err)
    | (c1, none) => visitInOrder f c1 ds

/-- A callback that records the digests it is called on and answers by `visit`. -/
def recording (visit : Digest → Option Err) : List Digest → Digest → List Digest × Option Err :=
  fun log d => (log ++ [d], visit d)

/-- The example filesystem with a second blob `[3]` and a stray entry `tmp` in
the content directory. -/
def diskWalk : FileSys :=
  withEntry (Set hexLib store0 disk1 [3]).1 ["var", "content", "sha256", "tmp"] (.file [0])

/-- The example filesystem with the directories of the extra root `/mnt`. -/
def diskMnt : FileSys := (MkdirAll disk0 (Join ["/mnt", "content", "sha256"])).1

/-- A digest of another algorithm, for which `newFSStore` made no directory. -/
def digest512 : Digest := ⟨"sha512", "0102"⟩

/-- A filesystem where the extra root holds, for `digest512`, bytes that do not
hash to it; the primary root has no directory for the algorithm. -/
def diskOther : FileSys :=
  withEntry (MkdirAll disk0 (Join ["/mnt", "content", "sha512"])).1
    ["mnt", "content", "sha512", "0102"] (.file [9])

/-- A filesystem where the extra root holds bytes that do not hash to the
example digest and the primary root has no entry for it. -/
def diskCorrupt : FileSys :=
  withEntry diskMnt ["mnt", "content", "sha256", "0102"] (.file [9])

theorem lookup_erase_self (nodes : Disk) (p : Loc) : lookup (erase nodes p) p = none := by
  induction nodes with
  | nil => rfl
  | cons e rest ih =>
    obtain ⟨q, n⟩ := e
    by_cases h : q = p
    · simpa [erase, List.filter_cons, h] using ih
    · simpa [erase, List.filter_cons, h, lookup] using ih

theorem lookup_erase_ne (nodes : Disk) {p q : Loc} (h : q ≠ p) :
    lookup (erase nodes p) q = lookup nodes q := by
  induction nodes with
  | nil => rfl
  | cons e rest ih =>
    obtain ⟨r, n⟩ := e
    by_cases hr : r = p
    · have hrq : r ≠ q := fun hq => h (hq ▸ hr)
      simpa [erase, List.filter_cons, hr, lookup, hrq, hr ▸ hrq] using ih
    · by_cases hq : r = q
      · subst hq
        simp [erase, List.filter_cons, hr, lookup]
      · simpa [erase, List.filter_cons, hr, lookup, hq] using ih

theorem lookup_put_self (nodes : Disk) (p : Loc) (n : Node) :
    lookup (put nodes p n) p = some n := by
  simp [put, lookup]

theorem lookup_put_ne (nodes : Disk) {p q : Loc} (n : Node) (h : q ≠ p) :
    lookup (put nodes p n) q = lookup nodes q := by
  have h1 : p ≠ q := fun e => h e.symm
  simp [put, lookup, h1, lookup_erase_ne nodes h]

theorem stripLead_append (d x : Loc) : stripLead d (d ++ x) = some x := by
  induction d with
  | nil => rfl
  | cons a as ih => simp [stripLead, ih]

theorem under_append (d x : Loc) : under d (d ++ x) = true := by
  simp [under, stripLead_append]

theorem under_self (d : Loc) : under d d = true := by
  simpa using under_append d []

theorem nodeAt_of_ne_nil (nodes : Disk) {p : Loc} (h : p ≠ []) : nodeAt nodes p = lookup nodes p := by
  cases p with
  | nil => exact absurd rfl h
  | cons a as => rfl

/-- The check of the directories above a location looks only at shorter
locations. -/
theorem checkDirs_congr {n1 n2 : Disk} :
    ∀ (cs : List String) (base : Loc),
      (∀ q : Loc, q.length < base.length + cs.length → lookup n2 q = lookup n1 q) →
      checkDirs n2 base cs = checkDirs n1 base cs
  | [], _, _ => rfl
  | [_], _, _ => rfl
  | c :: c2 :: cs, base, h => by
    unfold checkDirs
    have h1 : lookup n2 (base ++ [c]) = lookup n1 (base ++ [c]) :=
      h _ (by simp)
    rw [h1]
    have ih := @checkDirs_congr n1 n2 (c2 :: cs) (base ++ [c])
      (fun q hq => h q (by simp at hq ⊢; omega))
    rw [ih]

theorem checkDirs_put_self (nodes : Disk) (p : Loc) (n : Node) :
    checkDirs (put nodes p n) [] p = checkDirs nodes [] p :=
  checkDirs_congr p [] (fun q hq => lookup_put_ne nodes n (fun e => by simp [e] at hq))

theorem checkDirs_erase_self (nodes : Disk) (p : Loc) :
    checkDirs (erase nodes p) [] p = checkDirs nodes [] p :=
  checkDirs_congr p [] (fun q hq => lookup_erase_ne nodes (fun e => by simp [e] at hq))

theorem lstat_of_node {nodes : Disk} {p : Loc} {n : Node}
    (hc : checkDirs nodes [] p = .ok ()) (hn : nodeAt nodes p = some n) :
    lstat nodes p = .ok n := by
  simp [lstat, hc, hn]

theorem lstat_ok_inv {nodes : Disk} {p : Loc} {n : Node} (h : lstat nodes p = .ok n) :
    checkDirs nodes [] p = .ok () ∧ nodeAt nodes p = some n := by
  unfold lstat at h
  cases hc : checkDirs nodes [] p with
  | error e => simp [hc] at h
  | ok u =>
    simp only [hc] at h
    cases hn : nodeAt nodes p with
    | none => simp [hn] at h
    | some m =>
      simp only [hn, Except.ok.injEq] at h
      exact ⟨rfl, by rw [h]⟩

theorem follow_of_file {st : FileSys} {path : Path} {b : Bytes}
    (hc : checkDirs st.nodes [] (locate st path) = .ok ())
    (hn : nodeAt st.nodes (locate st path) = some (.file b)) :
    follow st path = .ok (locate st path, .file b) := by
  simp [follow, resolve, lstat_of_node hc hn]

theorem ReadFile_of_file {st : FileSys} {path : Path} {b : Bytes}
    (hc : checkDirs st.nodes [] (locate st path) = .ok ())
    (hn : nodeAt st.nodes (locate st path) = some (.file b)) :
    ReadFile st path = .ok b := by
  simp [ReadFile, follow_of_file hc hn]

/-- A path whose location has no entry cannot be read. -/
theorem ReadFile_of_lookup_none {st : FileSys} {path : Path}
    (h : lookup st.nodes (locate st path) = none) : ∃ e, ReadFile st path = .error e := by
  unfold ReadFile follow resolve lstat
  cases hc : checkDirs st.nodes [] (locate st path) with
  | error e => exact ⟨_, rfl⟩
  | ok u =>
    cases hp : locate st path with
    | nil => exact ⟨_, rfl⟩
    | cons a as =>
      rw [hp] at h
      simp [nodeAt, h]

theorem ReadFile_of_absent {st : FileSys} {path : Path}
    (hc : checkDirs st.nodes [] (locate st path) = .ok ())
    (hn : nodeAt st.nodes (locate st path) = none) :
    ReadFile st path = .error (.os "open" path .ENOENT) := by
  simp [ReadFile, follow, resolve, lstat, hc, hn]

theorem Stat_of_absent {st : FileSys} {path : Path}
    (hc : checkDirs st.nodes [] (locate st path) = .ok ())
    (hn : nodeAt st.nodes (locate st path) = none) :
    Stat st path = .error (.os "stat" path .ENOENT) := by
  simp [Stat, follow, resolve, lstat, hc, hn]

theorem AtomicWriteFile_ok_inv {st st1 : FileSys} {path : Path} {data : Bytes}
    (h : AtomicWriteFile st path data = .ok st1) :
    checkDirs st.nodes [] (locate st path) = .ok () ∧ locate st path ≠ [] ∧
      nodeAt st.nodes (locate st path) ≠ some .dir ∧
      st1 = { st with nodes := put st.nodes (locate st path) (.file data) } := by
  unfold AtomicWriteFile at h
  cases hc : checkDirs st.nodes [] (locate st path) with
  | error e => simp [hc] at h
  | ok u =>
    simp only [hc] at h
    have hnd : nodeAt st.nodes (locate st path) ≠ some .dir := by
      intro e
      simp [e] at h
    refine ⟨rfl, ?_, hnd, ?_⟩
    · intro e
      apply hnd
      rw [e]
      rfl
    · split at h
      · exact Except.noConfusion h
      · simp only [Except.ok.injEq] at h
        exact h.symm

/-- What was written can be read back. -/
theorem written_readable {st st1 : FileSys} {path : Path} {data : Bytes}
    (h : AtomicWriteFile st path data = .ok st1) :
    st1.cwd = st.cwd ∧ checkDirs st1.nodes [] (locate st1 path) = .ok () ∧
      nodeAt st1.nodes (locate st1 path) = some (.file data) ∧
      ReadFile st1 path = .ok data := by
  obtain ⟨hc, hne, _, hst⟩ := AtomicWriteFile_ok_inv h
  subst hst
  have h1 : checkDirs (put st.nodes (locate st path) (.file data)) [] (locate st path) = .ok () := by
    rw [checkDirs_put_self]
    exact hc
  have h2 : nodeAt (put st.nodes (locate st path) (.file data)) (locate st path) =
      some (.file data) := by
    rw [nodeAt_of_ne_nil _ hne]
    exact lookup_put_self _ _ _
  exact ⟨rfl, h1, h2, ReadFile_of_file h1 h2⟩

/-- What `get` does when extra storage is not selected. -/
theorem get_primary (D : DigestLib) (s : fs) (st : FileSys) (dgst : Digest) :
    get D s st dgst { UseExtraStorage := false } =
      match ReadFile st (contentFile s dgst false) with
      | .error err => (st, .error (.wrap err ("failed to get digest " ++ dgst.text)))
      | .ok content =>
        if D.FromBytes content ≠ dgst then
          (st, .error (.errorf ("failed to verify: " ++ dgst.text)))
        else (st, .ok content) := by
  simp [get]

theorem get_primary_of_read {D : DigestLib} {s : fs} {st : FileSys} {b : Bytes}
    (h : ReadFile st (contentFile s (D.FromBytes b) false) = .ok b) :
    get D s st (D.FromBytes b) { UseExtraStorage := false } = (st, .ok b) := by
  rw [get_primary, h]
  simp

theorem get_primary_of_error {D : DigestLib} {s : fs} {st : FileSys} {d : Digest} {e : Err}
    (h : ReadFile st (contentFile s d false) = .error e) :
    get D s st d { UseExtraStorage := false } =
      (st, .error (.wrap e ("failed to get digest " ++ d.text))) := by
  rw [get_primary, h]

theorem set_ok_inv {D : DigestLib} {s : fs} {st st1 : FileSys} {b : Bytes} {d : Digest}
    (h : Set D s st b = (st1, .ok d)) :
    b ≠ [] ∧ d = D.FromBytes b ∧ AtomicWriteFile st (contentFile s d false) b = .ok st1 := by
  unfold Set at h
  by_cases hb : b.length = 0
  · simp [hb] at h
  · simp only [hb, if_false] at h
    cases hw : AtomicWriteFile st (contentFile s (D.FromBytes b) false) b with
    | error e => simp [hw] at h
    | ok st2 =>
      simp only [hw, Prod.mk.injEq, Except.ok.injEq] at h
      obtain ⟨h1, h2⟩ := h
      subst h1 h2
      exact ⟨fun e => hb (by simp [e]), rfl, hw⟩

theorem Symlink_ok_inv {st st1 : FileSys} {o n : Path} (h : Symlink st o n = .ok st1) :
    checkDirs st.nodes [] (locate st n) = .ok () ∧ nodeAt st.nodes (locate st n) = none ∧
      st1 = { st with nodes := put st.nodes (locate st n) (.symlink o) } := by
  unfold Symlink at h
  cases hc : checkDirs st.nodes [] (locate st n) with
  | error e => simp [hc] at h
  | ok u =>
    simp only [hc] at h
    cases hl : nodeAt st.nodes (locate st n) with
    | some node => simp [hl] at h
    | none =>
      simp only [hl, Except.ok.injEq] at h
      exact ⟨rfl, rfl, h.symm⟩

theorem Remove_ok_inv {st st1 : FileSys} {path : Path} (h : Remove st path = (st1, none)) :
    st1.cwd = st.cwd ∧ checkDirs st1.nodes [] (locate st1 path) = .ok () ∧
      nodeAt st1.nodes (locate st1 path) = none := by
  unfold Remove at h
  cases hl : lstat st.nodes (locate st path) with
  | error e => simp [hl] at h
  | ok node =>
    obtain ⟨hc, hn⟩ := lstat_ok_inv hl
    have key : locate st path ≠ [] → st1 = { st with nodes := erase st.nodes (locate st path) } →
        st1.cwd = st.cwd ∧ checkDirs st1.nodes [] (locate st1 path) = .ok () ∧
          nodeAt st1.nodes (locate st1 path) = none := by
      intro hne hst
      subst hst
      refine ⟨rfl, ?_, ?_⟩
      · show checkDirs (erase st.nodes (locate st path)) [] (locate st path) = .ok ()
        rw [checkDirs_erase_self]
        exact hc
      · show nodeAt (erase st.nodes (locate st path)) (locate st path) = none
        rw [nodeAt_of_ne_nil _ hne]
        exact lookup_erase_self _ _
    have hfile : node ≠ .dir → locate st path ≠ [] := by
      intro hnd e
      rw [e] at hn
      simp only [nodeAt, Option.some.injEq] at hn
      exact hnd hn.symm
    cases node with
    | dir =>
      simp only [hl] at h
      by_cases h0 : locate st path = []
      · simp [h0] at h
      · simp only [h0, if_false] at h
        split at h
        · simp at h
        · simp only [Prod.mk.injEq, and_true] at h
          exact key h0 h.symm
    | file data =>
      simp only [hl, Prod.mk.injEq, and_true] at h
      exact key (hfile (by simp)) h.symm
    | symlink t =>
      simp only [hl, Prod.mk.injEq, and_true] at h
      exact key (hfile (by simp)) h.symm

/-- What `get` does with extra storage selected when the extra-root read fails:
the primary root is not read, and the digest of no content is compared. -/
theorem get_extra_unreadable (D : DigestLib) (s : fs) (st : FileSys) (d : Digest) (e : Err)
    (h : ReadFile st (contentFile s d true) = .error e) :
    get D s st d { UseExtraStorage := true } =
      if D.FromBytes [] ≠ d then (st, .error (.errorf ("failed to verify: " ++ d.text)))
      else (st, .ok []) := by
  simp [get, h]

/-- What `get` does with extra storage selected when the extra-root read
succeeds with `b`. -/
theorem get_extra_of_read (D : DigestLib) (s : fs) (st : FileSys) (d : Digest) (b : Bytes)
    (h : ReadFile st (contentFile s d true) = .ok b) :
    get D s st d { UseExtraStorage := true } =
      match Stat st (contentFile s d false) with
      | .ok _ =>
        if D.FromBytes b ≠ d then (st, .error (.errorf ("failed to verify: " ++ d.text)))
        else (st, .ok b)
      | .error err =>
        if IsNotExist err then
          match Symlink st (contentFile s d true) (contentFile s d false) with
          | .error err1 =>
            (st, .error (.wrap err1
              ("cannot make symbol link for file " ++ pathText (contentFile s d false))))
          | .ok st1 =>
            if D.FromBytes b ≠ d then (st1, .error (.errorf ("failed to verify: " ++ d.text)))
            else (st1, .ok b)
        else (st, .error (.wrap err ("stat file failed " ++ pathText (contentFile s d false)))) := by
  unfold get
  simp only [h, if_true]
  cases hs : Stat st (contentFile s d false) with
  | ok n => simp
  | error err =>
    by_cases hn : IsNotExist err = true
    · simp only [hn, if_true]
      cases hy : Symlink st (contentFile s d true) (contentFile s d false) with
      | error err1 => simp
      | ok st1 => simp
    · simp [hn]

theorem walkEntries_eq_visitInOrder {σ : Type} (D : DigestLib)
    (f : σ → Digest → σ × Option Err) (c : σ) (dir : List String) :
    walkEntries D f c dir = visitInOrder f c (validDigests D dir) := by
  induction dir generalizing c with
  | nil => rfl
  | cons v rest ih =>
    unfold walkEntries
    cases hv : D.Validate (NewDigestFromHex Canonical v) with
    | some e =>
      simp only [validDigests, List.map_cons, List.filter_cons, hv, Option.isNone_some]
      simpa [validDigests] using ih c
    | none =>
      simp only [validDigests, List.map_cons, List.filter_cons, hv, Option.isNone_none,
        if_true, visitInOrder]
      rcases hf : f c (NewDigestFromHex Canonical v) with ⟨c1, oe⟩
      cases oe with
      | some e => rfl
      | none => simpa [validDigests] using ih c1

theorem visitInOrder_recording_all (visit : Digest → Option Err) (log ds : List Digest)
    (h : ∀ d ∈ ds, visit d = none) :
    visitInOrder (recording visit) log ds = (log ++ ds, none) := by
  induction ds generalizing log with
  | nil => simp [visitInOrder]
  | cons d ds ih =>
    have hd : visit d = none := h d (List.mem_cons_self d ds)
    have ht : ∀ x ∈ ds, visit x = none := fun x hx => h x (List.mem_cons_of_mem d hx)
    simp only [visitInOrder, recording, hd]
    simpa [recording] using ih (log ++ [d]) ht

theorem visitInOrder_recording_stop (visit : Digest → Option Err) (log pre post : List Digest)
    (d : Digest) (e : Err) (h : ∀ x ∈ pre, visit x = none) (hd : visit d = some e) :
    visitInOrder (recording visit) log (pre ++ d :: post) = (log ++ pre ++ [d], some e) := by
  induction pre generalizing log with
  | nil => simp [visitInOrder, recording, hd]
  | cons x pre ih =>
    have hx : visit x = none := h x (List.mem_cons_self x pre)
    have ht : ∀ y ∈ pre, visit y = none := fun y hy => h y (List.mem_cons_of_mem x hy)
    simp only [List.cons_append, visitInOrder, recording, hx]
    simpa [recording] using ih (log ++ [x]) ht

/-- C1, round trip: when `Set b` succeeds and returns digest `d` (so `b` is
non-empty and `d` is its digest), `Get d` without extra storage on the
resulting state succeeds, leaves the state as it is and returns exactly `b`. -/
theorem set_get_roundtrip (D : DigestLib) (s : fs) (st st1 : FileSys) (b : Bytes) (d : Digest)
    (h : Set D s st b = (st1, .ok d)) :
    b ≠ [] ∧ d = D.FromBytes b ∧ Get D s st1 d { UseExtraStorage := false } = (st1, .ok b) := by
  obtain ⟨hb, hd, hw⟩ := set_ok_inv h
  subst hd
  exact ⟨hb, rfl, get_primary_of_read (written_readable hw).2.2.2⟩

theorem set_get_roundtrip_witness :
    Set hexLib store0 disk0 [1, 2] = (disk1, .ok digest12) ∧
      Get hexLib store0 disk1 digest12 { UseExtraStorage := false } = (disk1, .ok [1, 2]) :=
  ⟨by decide, (set_get_roundtrip hexLib store0 disk0 disk1 [1, 2] digest12 (by decide)).2.2⟩

/-- C2, no fallback to the primary root: in the example state the primary
content file of the digest holds `[1, 2]`, which hashes to it, and the extra
root has no such file; `Get` with extra storage selected does not return
`[1, 2]` but fails with the integrity error, and so it does for the store that
has no extra root configured. -/
theorem get_extra_miss_skips_primary :
    ReadFile disk1 (contentFile store0 digest12 false) = .ok [1, 2] ∧
      hexLib.FromBytes [1, 2] = digest12 ∧
      ReadFile disk1 (contentFile store0 digest12 true) =
        .error (.os "open" (contentFile store0 digest12 true) .ENOENT) ∧
      Get hexLib store0 disk1 digest12 { UseExtraStorage := true } =
        (disk1, .error (.errorf "failed to verify: sha256:0102")) ∧
      Get hexLib storeNoExtra disk1 digest12 { UseExtraStorage := true } =
        (disk1, .error (.errorf "failed to verify: sha256:0102")) := by
  decide

/-- C5, empty rejection: in every store state `Set` of the empty byte sequence
fails with the invalid-input error, yields no digest, and returns the state
unchanged, so no file is created. -/
theorem set_empty_rejected (D : DigestLib) (s : fs) (st : FileSys) :
    Set D s st [] = (st, .error (.errorf "invalid empty data")) := by
  simp [Set]

/-- C7, metadata requires a blob: when the primary-root content file of `d` is
absent, or holds bytes that do not hash to `d`, `SetMetadata d k v` fails with
the very error `Get d` gives and returns the state unchanged: nothing is
written.  In the first case the error is the wrapped read failure, a not-found
error when the read failed for a missing file; in the second it is the
integrity error. -/
theorem setMetadata_requires_blob (D : DigestLib) (s : fs) (st : FileSys) (d : Digest)
    (k : String) (v : Bytes)
    (h : lookup st.nodes (locate st (contentFile s d false)) = none ∨
      ∃ b1, ReadFile st (contentFile s d false) = .ok b1 ∧ D.FromBytes b1 ≠ d) :
    ∃ e, Get D s st d { UseExtraStorage := false } = (st, .error e) ∧
      SetMetadata D s st d k v = (st, some e) ∧
      (lookup st.nodes (locate st (contentFile s d false)) = none →
        ∃ e0, ReadFile st (contentFile s d false) = .error e0 ∧
          e = .wrap e0 ("failed to get digest " ++ d.text) ∧
          (IsNotExist e0 = true → IsNotFound e = true)) ∧
      ((∃ b1, ReadFile st (contentFile s d false) = .ok b1 ∧ D.FromBytes b1 ≠ d) →
        e = .errorf ("failed to verify: " ++ d.text)) := by
  rcases h with h | ⟨b1, hr, hb⟩
  · obtain ⟨e0, he0⟩ := ReadFile_of_lookup_none h
    have hg := get_primary_of_error (D := D) he0
    refine ⟨_, hg, ?_, fun _ => ⟨e0, he0, rfl, ?_⟩, ?_⟩
    · simp [SetMetadata, hg]
    · intro hne
      cases e0 with
      | os op pth errno =>
        cases errno <;> simp_all [IsNotExist, IsNotFound]
      | errorf m => simp [IsNotExist] at hne
      | wrap c m => simp [IsNotExist] at hne
    · rintro ⟨b1, hr, _⟩
      rw [he0] at hr
      exact Except.noConfusion hr
  · have hg : get D s st d { UseExtraStorage := false } =
        (st, .error (.errorf ("failed to verify: " ++ d.text))) := by
      rw [get_primary, hr]
      simp [hb]
    refine ⟨_, hg, ?_, ?_, fun _ => rfl⟩
    · simp [SetMetadata, hg]
    · intro hn
      obtain ⟨e0, he0⟩ := ReadFile_of_lookup_none hn
      rw [he0] at hr
      exact Except.noConfusion hr

theorem setMetadata_requires_blob_witness :
    lookup disk0.nodes (locate disk0 (contentFile store0 digest12 false)) = none ∧
      ∃ e, Get hexLib store0 disk0 digest12 { UseExtraStorage := false } = (disk0, .error e) ∧
        SetMetadata hexLib store0 disk0 digest12 "parent" [7] = (disk0, some e) ∧
        (lookup disk0.nodes (locate disk0 (contentFile store0 digest12 false)) = none →
          ∃ e0, ReadFile disk0 (contentFile store0 digest12 false) = .error e0 ∧
            e = .wrap e0 ("failed to get digest " ++ digest12.text) ∧
            (IsNotExist e0 = true → IsNotFound e = true)) ∧
        ((∃ b1, ReadFile disk0 (contentFile store0 digest12 false) = .ok b1 ∧
            hexLib.FromBytes b1 ≠ digest12) →
          e = .errorf ("failed to verify: " ++ digest12.text)) :=
  ⟨by decide,
    setMetadata_requires_blob hexLib store0 disk0 digest12 "parent" [7] (Or.inl (by decide))⟩

/-- C8, delete cascades: after `Delete d` succeeds, `Get d` without extra
storage fails on the resulting state with a not-found error, and
`GetMetadata d k` fails with that same not-found error for every key `k`. -/
theorem delete_cascades (D : DigestLib) (s : fs) (st st1 : FileSys) (d : Digest)
    (h : Delete s st d = (st1, none)) :
    ∃ e, IsNotFound e = true ∧
      Get D s st1 d { UseExtraStorage := false } = (st1, .error e) ∧
      ∀ k, GetMetadata D s st1 d k = (st1, .error e) := by
  simp only [Delete] at h
  rcases hr : RemoveAll st (metadataDir s d false) with ⟨st0, oe⟩
  rw [hr] at h
  cases oe with
  | some e => simp at h
  | none =>
    simp only at h
    obtain ⟨_, hc, hn⟩ := Remove_ok_inv h
    have hg := get_primary_of_error (D := D) (ReadFile_of_absent hc hn)
    refine ⟨_, by simp [IsNotFound], hg, fun k => ?_⟩
    simp [GetMetadata, hg]

theorem delete_cascades_witness :
    Delete store0 disk2 digest12 = (disk3, none) ∧
      ∃ e, IsNotFound e = true ∧
        Get hexLib store0 disk3 digest12 { UseExtraStorage := false } = (disk3, .error e) ∧
        ∀ k, GetMetadata hexLib store0 disk3 digest12 k = (disk3, .error e) :=
  ⟨by decide, delete_cascades hexLib store0 disk2 disk3 digest12 (by decide)⟩

/-- C9, walk completeness, filtering and abort: for every listing `dir` of the
primary content directory of the canonical algorithm and every callback, `Walk`
is the in-order visit of exactly the digests built from the entry names that
pass validation (invalid entries are never reported), stopping at the first
error of the callback and returning it unmodified.  For a recording callback:
when `visit` never fails, the calls are exactly the valid digests in listing
order and `Walk` succeeds; when `visit` first fails at `d` with error `e`, the
calls are the valid digests up to and including `d`, and `Walk` returns `e`. -/
theorem walk_visits_valid_entries (D : DigestLib) (s : fs) (st : FileSys) (dir : List String)
    (h : ReadDir st (Join [s.root, contentDirName, Canonical]) = .ok dir) :
    (∀ (σ : Type) (f : σ → Digest → σ × Option Err) (c : σ),
      Walk D s st f c = visitInOrder f c (validDigests D dir)) ∧
    (∀ visit : Digest → Option Err, (∀ d ∈ validDigests D dir, visit d = none) →
      Walk D s st (recording visit) [] = (validDigests D dir, none)) ∧
    (∀ (visit : Digest → Option Err) (pre post : List Digest) (d : Digest) (e : Err),
      validDigests D dir = pre ++ d :: post → (∀ x ∈ pre, visit x = none) →
      visit d = some e → Walk D s st (recording visit) [] = (pre ++ [d], some e)) := by
  have key : ∀ (σ : Type) (f : σ → Digest → σ × Option Err) (c : σ),
      Walk D s st f c = visitInOrder f c (validDigests D dir) := by
    intro σ f c
    simp only [Walk, h]
    exact walkEntries_eq_visitInOrder D f c dir
  refine ⟨key, ?_, ?_⟩
  · intro visit hv
    rw [key, visitInOrder_recording_all visit [] _ hv]
    simp
  · intro visit pre post d e hsplit hpre hd
    rw [key, hsplit, visitInOrder_recording_stop visit [] pre post d e hpre hd]
    simp

theorem walk_visits_valid_entries_witness :
    ReadDir diskWalk (Join [store0.root, contentDirName, Canonical]) =
        .ok ["0102", "03", "tmp"] ∧
      Walk hexLib store0 diskWalk (recording (fun _ => none)) [] =
        ([⟨Canonical, "0102"⟩, ⟨Canonical, "03"⟩], none) :=
  ⟨by decide,
    (walk_visits_valid_entries hexLib store0 diskWalk ["0102", "03", "tmp"] (by decide)).2.1
      (fun _ => none) (fun _ _ => rfl)⟩

/-- C3 as stated fails: with extra storage selected, a content file that was
read and does not hash to the digest need not lead to the integrity error.  In
`diskOther` the primary root has no directory for the algorithm of the digest,
the promotion link cannot be created, and `Get` fails with that error. -/
theorem get_integrity_counterexample :
    ¬ ∀ (D : DigestLib) (s : fs) (st : FileSys) (d : Digest) (opt : StoreBackendOptions)
        (b1 : Bytes),
        ReadFile st (contentFile s d opt.UseExtraStorage) = .ok b1 → D.FromBytes b1 ≠ d →
        (Get D s st d opt).2 = .error (.errorf ("failed to verify: " ++ d.text)) := by
  intro h
  have h1 := h hexLib store0 diskOther digest512 { UseExtraStorage := true } [9]
    (by decide) (by decide)
  revert h1
  decide

/-- C3 amended, integrity detection: let the content file `Get` reads for `d`
(under the extra root if extra storage is selected, else under the primary
root) hold bytes `b1` that do not hash to `d`.  If extra storage is not
selected, or the promotion step does not fail (the primary path exists or the
link can be created), `Get d` returns no bytes and fails with the integrity
error.  With extra storage selected, if the primary path cannot be examined,
or has no entry and the link cannot be created, `Get` returns that promotion
error and the state unchanged.  The integrity error is no not-found error and
differs from the wrapped read failure `Get` without extra storage returns when
the content file cannot be read, which is a not-found error when the file is
missing. -/
theorem get_detects_corruption (D : DigestLib) (s : fs) (st : FileSys) (d : Digest)
    (opt : StoreBackendOptions) (b1 : Bytes)
    (hread : ReadFile st (contentFile s d opt.UseExtraStorage) = .ok b1)
    (hbad : D.FromBytes b1 ≠ d) :
    ((opt.UseExtraStorage = true →
        (∃ n, Stat st (contentFile s d false) = .ok n) ∨
        ∃ st1, Symlink st (contentFile s d true) (contentFile s d false) = .ok st1) →
      (Get D s st d opt).2 = .error (.errorf ("failed to verify: " ++ d.text))) ∧
    (opt.UseExtraStorage = true → ∀ err, Stat st (contentFile s d false) = .error err →
      IsNotExist err = false →
      Get D s st d opt = (st, .error (.wrap err
        ("stat file failed " ++ pathText (contentFile s d false))))) ∧
    (opt.UseExtraStorage = true → ∀ err err1, Stat st (contentFile s d false) = .error err →
      IsNotExist err = true →
      lookup st.nodes (locate st (contentFile s d false)) = none →
      Symlink st (contentFile s d true) (contentFile s d false) = .error err1 →
      Get D s st d opt = (st, .error (.wrap err1
        ("cannot make symbol link for file " ++ pathText (contentFile s d false))))) ∧
    IsNotFound (.errorf ("failed to verify: " ++ d.text)) = false ∧
    (∀ st0 e0, ReadFile st0 (contentFile s d false) = .error e0 →
      Get D s st0 d { UseExtraStorage := false } =
        (st0, .error (.wrap e0 ("failed to get digest " ++ d.text))) ∧
      Err.wrap e0 ("failed to get digest " ++ d.text) ≠ .errorf ("failed to verify: " ++ d.text) ∧
      (IsNotExist e0 = true → IsNotFound (.wrap e0 ("failed to get digest " ++ d.text)) = true)) := by
  obtain ⟨u⟩ := opt
  refine ⟨?_, ?_, ?_, rfl, ?_⟩
  · intro hprom
    cases u with
    | false =>
      simp only [Get]
      rw [get_primary, hread]
      simp [hbad]
    | true =>
      simp only [Get]
      rw [get_extra_of_read D s st d b1 hread]
      rcases hprom rfl with ⟨n, hs⟩ | ⟨st1, hy⟩
      · simp [hs, hbad]
      · obtain ⟨hc, hn, _⟩ := Symlink_ok_inv hy
        simp [Stat_of_absent hc hn, IsNotExist, hy, hbad]
  · intro hu err hs hne
    simp only at hu
    subst hu
    simp only [Get]
    rw [get_extra_of_read D s st d b1 hread]
    simp [hs, hne]
  · intro hu err err1 hs hne _ hy
    simp only at hu
    subst hu
    simp only [Get]
    rw [get_extra_of_read D s st d b1 hread]
    simp [hs, hne, hy]
  · intro st0 e0 he0
    refine ⟨get_primary_of_error he0, by simp, ?_⟩
    intro hne
    cases e0 with
    | os op pth errno => cases errno <;> simp_all [IsNotExist, IsNotFound]
    | errorf m => simp [IsNotExist] at hne
    | wrap c m => simp [IsNotExist] at hne

theorem get_detects_corruption_witness :
    ReadFile diskCorrupt (contentFile store0 digest12 true) = .ok [9] ∧
      hexLib.FromBytes [9] ≠ digest12 ∧
      (Get hexLib store0 diskCorrupt digest12 { UseExtraStorage := true }).2 =
        .error (.errorf ("failed to verify: " ++ digest12.text)) :=
  ⟨by decide, by decide,
    (get_detects_corruption hexLib store0 diskCorrupt digest12 { UseExtraStorage := true } [9]
      (by decide) (by decide)).1 (fun _ => Or.inr ⟨_, rfl⟩)⟩

end image
